import Mathlib

/-!
# Verification of the wordleClone word-curation pipeline

Shallow embedding of the three Python source files of the repository

  * `process_words.py`          (normalizer, proper-noun / plural heuristics,
                                 the main pipeline that emits the two word lists)
  * `scripts/smart_filter.py`   (heuristic validator, spell-check oracle fallback,
                                 JS generation where VALID_GUESSES aliases TARGET_WORDS)
  * `scripts/extract_from_libreoffice.py`  (Hunspell .dic extraction, ligature
                                 expansion, 5-letter filter)

Python strings are modelled as `List Char`.  Unicode-dependent primitives
(`str.lower`, `str.isupper`, `unicodedata.normalize('NFKD', ·)` followed by
removal of combining marks, `str.isalpha`) are modelled by explicit tables
over the Latin / French character repertoire that the pipeline actually
processes; characters outside the tables pass through unchanged, exactly as
unmapped characters do in the Python code paths under consideration.
-/

set_option maxRecDepth 20000

/-- A Python string, modelled as its list of characters. -/
abbrev Word := List Char

/-- Association-list lookup used for the explicit character tables. -/
def lookupChar {β : Type} (c : Char) : List (Char × β) → Option β
  | [] => none
  | (k, v) :: rest => if c = k then some v else lookupChar c rest

/-- Model of Python `str.strip`'s whitespace test (ASCII whitespace). -/
def pyIsSpace (c : Char) : Bool :=
  c = ' ' || c = '\t' || c = '\n' || c = '\r' || c.val = 11 || c.val = 12

/-- Model of Python `str.strip()`: drop whitespace from both ends. -/
def pyStrip (w : Word) : Word :=
  ((w.dropWhile pyIsSpace).reverse.dropWhile pyIsSpace).reverse

/-- Lowercasing table for the Latin / French repertoire
(`str.lower` restricted to the characters the pipeline handles). -/
def lowerPairs : List (Char × Char) :=
  [('A', 'a'), ('B', 'b'), ('C', 'c'), ('D', 'd'), ('E', 'e'), ('F', 'f'),
   ('G', 'g'), ('H', 'h'), ('I', 'i'), ('J', 'j'), ('K', 'k'), ('L', 'l'),
   ('M', 'm'), ('N', 'n'), ('O', 'o'), ('P', 'p'), ('Q', 'q'), ('R', 'r'),
   ('S', 's'), ('T', 't'), ('U', 'u'), ('V', 'v'), ('W', 'w'), ('X', 'x'),
   ('Y', 'y'), ('Z', 'z'),
   ('À', 'à'), ('Á', 'á'), ('Â', 'â'), ('Ã', 'ã'), ('Ä', 'ä'), ('Å', 'å'),
   ('Æ', 'æ'), ('Ç', 'ç'), ('È', 'è'), ('É', 'é'), ('Ê', 'ê'), ('Ë', 'ë'),
   ('Ì', 'ì'), ('Í', 'í'), ('Î', 'î'), ('Ï', 'ï'), ('Ñ', 'ñ'),
   ('Ò', 'ò'), ('Ó', 'ó'), ('Ô', 'ô'), ('Õ', 'õ'), ('Ö', 'ö'),
   ('Ù', 'ù'), ('Ú', 'ú'), ('Û', 'û'), ('Ü', 'ü'), ('Ý', 'ý'),
   ('Œ', 'œ'), ('Ÿ', 'ÿ')]

/-- Model of Python `str.lower` on a single character. -/
def pyLower (c : Char) : Char := (lookupChar c lowerPairs).getD c

/-- Model of Python `str.lower` on a string. -/
def pyLowerStr (w : Word) : Word := w.map pyLower

/-- `process_words.remove_accents`, step 1: the manual ligature replacement
`input_str.replace('œ', 'oe').replace('æ', 'ae')`, character-wise. -/
def expandLig (c : Char) : List Char :=
  if c = 'œ' then ['o', 'e'] else if c = 'æ' then ['a', 'e'] else [c]

/-- Ligature replacement lifted to strings. -/
def expandLigs : Word → Word
  | [] => []
  | c :: cs => expandLig c ++ expandLigs cs

/-- NFKD decomposition followed by removal of combining marks, as a table:
each precomposed accented letter of the repertoire decomposes to its base
letter plus combining marks, and the combining marks are dropped; the
compatibility ligatures ﬁ and ﬂ decompose to two letters.  Characters with
no decomposition (including œ, æ, ø, ð, þ) are left untouched. -/
def stripPairs : List (Char × List Char) :=
  [('à', ['a']), ('á', ['a']), ('â', ['a']), ('ã', ['a']), ('ä', ['a']), ('å', ['a']),
   ('ç', ['c']),
   ('è', ['e']), ('é', ['e']), ('ê', ['e']), ('ë', ['e']),
   ('ì', ['i']), ('í', ['i']), ('î', ['i']), ('ï', ['i']),
   ('ñ', ['n']),
   ('ò', ['o']), ('ó', ['o']), ('ô', ['o']), ('õ', ['o']), ('ö', ['o']),
   ('ù', ['u']), ('ú', ['u']), ('û', ['u']), ('ü', ['u']),
   ('ý', ['y']), ('ÿ', ['y']),
   ('À', ['A']), ('Á', ['A']), ('Â', ['A']), ('Ã', ['A']), ('Ä', ['A']), ('Å', ['A']),
   ('Ç', ['C']),
   ('È', ['E']), ('É', ['E']), ('Ê', ['E']), ('Ë', ['E']),
   ('Ì', ['I']), ('Í', ['I']), ('Î', ['I']), ('Ï', ['I']),
   ('Ñ', ['N']),
   ('Ò', ['O']), ('Ó', ['O']), ('Ô', ['O']), ('Õ', ['O']), ('Ö', ['O']),
   ('Ù', ['U']), ('Ú', ['U']), ('Û', ['U']), ('Ü', ['U']),
   ('Ý', ['Y']), ('Ÿ', ['Y']),
   ('ﬁ', ['f', 'i']), ('ﬂ', ['f', 'l'])]

/-- NFKD-decompose one character and drop its combining marks. -/
def nfkdStrip (c : Char) : List Char := (lookupChar c stripPairs).getD [c]

/-- NFKD-decompose a string and drop combining marks. -/
def stripMarks : Word → Word
  | [] => []
  | c :: cs => nfkdStrip c ++ stripMarks cs

/-- `process_words.remove_accents`: expand the ligatures œ and æ first, then
NFKD-decompose and drop every combining mark. -/
def remove_accents (w : Word) : Word := stripMarks (expandLigs w)

/-- The curated proper-noun exclusion set of `process_words.is_likely_proper_noun`. -/
def proper_nouns : List Word :=
  (["paris", "lyon", "brest", "nancy", "lille", "metz", "rouen", "tours", "reims", "caen",
    "dijon", "nimes", "arles", "evron", "melun", "naves", "nesle", "oiron", "royan", "sedan",
    "tulle", "ugine", "ussel", "yenne", "allos", "cluse", "dinan", "ernee", "isola", "trets",
    "tunis", "dubai", "tokyo", "milan", "vaduz", "sofia", "osaka", "turku", "dacca", "hanoi",
    "kyoto", "doha", "lima", "oslo", "riga", "rome", "seoul", "bern",
    "italy", "chine", "grece", "japon", "maroc", "suede", "suisse", "syrie", "tchad", "yemen",
    "perse", "indes", "galles", "exode", "tibet", "nepal", "texas", "maine",
    "kanak", "tutsi", "slave", "sarde", "maure", "kurde", "latino", "khmer", "azteque", "incas",
    "alice", "chloe", "clara", "elena", "julia", "livia", "maeva", "sarah", "sofia", "adele",
    "ambre", "anais", "annie", "anouk", "marie", "leila", "lydie", "laure", "linda", "paola",
    "katia", "sonya", "helen", "greta", "sandy", "nancy", "lucie", "julie", "celia", "diane",
    "fanny", "flora", "manon", "ninon", "tanya", "kelly", "joyce", "eliza", "daisy", "cathy",
    "betty", "alida", "aglae", "irene", "edith", "ester", "agathe", "jeanne", "louise",
    "angel", "bruno", "denis", "emile", "ethan", "felix", "henri", "james", "jules", "louis",
    "lucas", "nolan", "aaron", "david", "kevin", "steve", "serge", "cyril", "jason", "johan",
    "marco", "mateo", "oscar", "sacha", "simon", "teddy", "timon", "tommy", "willy", "yanis",
    "brian", "cedric", "damien", "dylan", "edwin", "frank", "gilles", "hervé", "jerry", "jimmy",
    "jonas", "keith", "larry", "maud", "mulan", "peter", "ralph", "robin", "ruben", "samuel",
    "tanguy", "terry", "walter", "wayne", "xavier", "yves", "alain", "boris", "colin",
    "allah", "jesus", "judas", "moise", "noel", "paques", "satan", "venus", "zeus", "hades", "thor",
    "shiva", "brahma", "vishnu", "buddha", "christ", "islam", "coran", "bible", "torah", "vada",
    "pepsi", "coke", "fanta", "apple", "google", "linux", "skype", "twitter", "yahoo", "zoile",
    "boeing", "airbus", "nasa", "esa", "nato", "otan", "unesco",
    "navel", "diesel", "caddie", "scotch", "frigo", "karcher", "klaxon", "sopalin", "velux",
    "postit"]).map String.toList

/-- `process_words.is_likely_proper_noun`: exact membership in the curated set. -/
def is_likely_proper_noun (w : Word) : Bool := decide (w ∈ proper_nouns)

/-- Model of Python `str.endswith`: the suffix test. -/
def pyEndswith (w s : Word) : Bool := w.reverse.take s.length == s.reverse

/-- The "common singular words ending in s" exception list of
`process_words.is_likely_plural_or_conjugated`. -/
def s_exceptions : List Word :=
  (["temps", "corps", "repas", "moisc", "cours", "souris", "velours", "tapis",
    "puits", "chaos", "os", "as", "buis"]).map String.toList

/-- The "ez" exception list of `process_words.is_likely_plural_or_conjugated`. -/
def ez_exceptions : List Word := (["assez"]).map String.toList

/-- `process_words.is_likely_plural_or_conjugated`: a word ending in `s` is
likely plural unless it is in the singular-s exception list; a word ending in
`ez` is likely conjugated unless it is in the ez exception list. -/
def is_likely_plural_or_conjugated (w : Word) : Bool :=
  if pyEndswith w ['s'] ∧ ¬ (w ∈ s_exceptions) then true
  else if pyEndswith w ['e', 'z'] ∧ ¬ (w ∈ ez_exceptions) then true
  else false

/-- The per-word body of the loop in `process_words.main`: normalize, skip
unless the normalized form has exactly 5 characters, skip proper nouns,
otherwise yield the normalized word (which the loop appends to
`valid_guesses`). -/
def keepWord (w : Word) : Option Word :=
  let n := remove_accents w
  if n.length ≠ 5 then none
  else if is_likely_proper_noun n then none
  else some n

/-- The `valid_guesses` list accumulated by the loop of `process_words.main`
(before deduplication and sorting). -/
def valid_guesses_raw (ws : List Word) : List Word := ws.filterMap keepWord

/-- The `target_words` list accumulated by the loop of `process_words.main`:
exactly the `valid_guesses` entries that are not likely plural or
conjugated, in the same order. -/
def target_words_raw (ws : List Word) : List Word :=
  (valid_guesses_raw ws).filter (fun n => ¬ is_likely_plural_or_conjugated n)

/-- Lexicographic comparison on words, used to model Python `sorted`. -/
def lexLe : Word → Word → Bool
  | [], _ => true
  | _ :: _, [] => false
  | a :: as, b :: bs => if a < b then true else if a = b then lexLe as bs else false

/-- Insertion step of the sort modelling Python `sorted`. -/
def insertWord (w : Word) : List Word → List Word
  | [] => [w]
  | x :: xs => if lexLe w x then w :: x :: xs else x :: insertWord w xs

/-- Insertion sort modelling Python `sorted`. -/
def sortWords : List Word → List Word
  | [] => []
  | x :: xs => insertWord x (sortWords xs)

/-- `sorted(list(set(xs)))`: deduplicate, then sort lexicographically. -/
def sortDedup (ws : List Word) : List Word := sortWords ws.dedup

/-- The read-and-clean step of `process_words.main`:
`[w.strip().lower() for w in raw_content.splitlines() if w.strip()]`. -/
def preprocess (lines : List Word) : List Word :=
  lines.filterMap (fun l =>
    let s := pyStrip l
    if s = [] then none else some (pyLowerStr s))

/-- The final `valid_guesses` list emitted by `process_words.main`. -/
def main_valid (lines : List Word) : List Word :=
  sortDedup (valid_guesses_raw (preprocess lines))

/-- The final `target_words` list emitted by `process_words.main`. -/
def main_target (lines : List Word) : List Word :=
  sortDedup (target_words_raw (preprocess lines))

/-- Observable outcome of one run of `process_words.main`: the contents
written to `words.js` (if any) and the error message printed by the
`except` block (if any). -/
structure RunResult where
  output : Option (List Word × List Word)
  errorMsg : Option Word
deriving DecidableEq

/-- `process_words.main` as a whole.  The body is one `try` block: reading
`words_raw.txt` happens first; if the file is missing or unreadable the
raised exception (whose message names the offending path) jumps straight to
the `except` handler, so `words.js` is never opened; otherwise the full
batch is processed and only then is `words.js` written. -/
def main_run (file : Option (List Word)) : RunResult :=
  match file with
  | none => { output := none, errorMsg := some ("words_raw.txt".toList) }
  | some lines =>
      { output := some (main_target lines, main_valid lines), errorMsg := none }

/-! ## `scripts/smart_filter.py` -/

/-- The vowel class of the regexes in `SmartFilterV2._is_valid_word`:
`[aeiouyàâäéèêëïîôöœùûüæ]`. -/
def isVowelSF (c : Char) : Bool :=
  ("aeiouyàâäéèêëïîôöœùûüæ".toList).contains c

/-- The consonant class of the start-shape regex: `[bcdfghjklmnpqrstvwxyz]`. -/
def isConsonantSF (c : Char) : Bool :=
  ("bcdfghjklmnpqrstvwxyz".toList).contains c

/-- Model of Python `str.isupper` on a single character, restricted to the
Latin / French repertoire: the keys of the lowercasing table are exactly the
uppercase letters the pipeline can meet. -/
def pyIsUpper (c : Char) : Bool := (lookupChar c lowerPairs).isSome

/-- Criterion 1 of `_is_valid_word`: `word and word[0].isupper()`. -/
def properFail (w : Word) : Bool :=
  match w with
  | [] => false
  | c :: _ => pyIsUpper c

/-- Criterion 2 of `_is_valid_word`: `len(word) < 3 or len(word) > 5`. -/
def lengthFail (w : Word) : Bool := decide (w.length < 3) || decide (w.length > 5)

/-- Criterion 3 of `_is_valid_word`: no character matches the vowel class. -/
def vowelFail (w : Word) : Bool := ¬ w.any isVowelSF

/-- Criterion 6 of `_is_valid_word`: `len(word) > 1 and word[0] == word[1]`. -/
def doubleStartFail (w : Word) : Bool :=
  match w with
  | a :: b :: _ => a == b
  | _ => false

/-- The bad-ending blacklist of criterion 7 of `_is_valid_word`. -/
def bad_endings : List Word := (["nm", "bd", "fh", "jk", "qx", "zz", "ww"]).map String.toList

/-- Criterion 7 of `_is_valid_word`: `any(word.endswith(e) for e in bad_endings)`. -/
def badEndingFail (w : Word) : Bool := bad_endings.any (fun e => pyEndswith w e)

/-- The start-shape regex of criterion 8:
`^([vowel]|[consonant]{1,3}[vowel])` as a prefix match — the word starts
with a vowel, or with 1 to 3 consonants immediately followed by a vowel. -/
def startShapeOk (w : Word) : Bool :=
  match w with
  | c0 :: rest0 =>
      isVowelSF c0 ||
        (isConsonantSF c0 &&
          match rest0 with
          | c1 :: rest1 =>
              isVowelSF c1 ||
                (isConsonantSF c1 &&
                  match rest1 with
                  | c2 :: rest2 =>
                      isVowelSF c2 ||
                        (isConsonantSF c2 &&
                          match rest2 with
                          | c3 :: _ => isVowelSF c3
                          | [] => false)
                  | [] => false)
          | [] => false)
  | [] => false

/-- Criterion 8 of `_is_valid_word`: the start shape does not match. -/
def badStartFail (w : Word) : Bool := ¬ startShapeOk w

/-- The rejection reasons recorded in `self.stats` by `_is_valid_word`. -/
inductive Reason where
  | rejected_proper_noun
  | rejected_length
  | rejected_no_vowel
  | rejected_double_start
  | rejected_bad_ending
  | rejected_bad_start
deriving DecidableEq

/-- `SmartFilterV2._is_valid_word`, with the recorded rejection reason made
explicit: the chain of `if ... return False` statements, in source order,
each tagged with the statistics key it increments; `none` means the word
survives every rule and the function returns `True`. -/
def validateWord (w : Word) : Option Reason :=
  if properFail w then some Reason.rejected_proper_noun
  else if lengthFail w then some Reason.rejected_length
  else if vowelFail w then some Reason.rejected_no_vowel
  else if doubleStartFail w then some Reason.rejected_double_start
  else if badEndingFail w then some Reason.rejected_bad_ending
  else if badStartFail w then some Reason.rejected_bad_start
  else none

/-- The Boolean verdict of `SmartFilterV2._is_valid_word`. -/
def is_valid_word (w : Word) : Bool := (validateWord w).isNone

/-- Whether a given rule, taken in isolation, fails on a word. -/
def ruleFails (r : Reason) (w : Word) : Bool :=
  match r with
  | Reason.rejected_proper_noun => properFail w
  | Reason.rejected_length => lengthFail w
  | Reason.rejected_no_vowel => vowelFail w
  | Reason.rejected_double_start => doubleStartFail w
  | Reason.rejected_bad_ending => badEndingFail w
  | Reason.rejected_bad_start => badStartFail w

/-- The fixed rule order stated by the specification: proper noun, length,
vowel presence, identical first two characters, bad ending, start shape. -/
def ruleOrder : List Reason :=
  [Reason.rejected_proper_noun, Reason.rejected_length, Reason.rejected_no_vowel,
   Reason.rejected_double_start, Reason.rejected_bad_ending, Reason.rejected_bad_start]

/-- Modelled from the spec: the first failing rule of an ordered rule list
(short-circuit evaluation), the reason the specification says is recorded. -/
def firstFailing (w : Word) : List Reason → Option Reason
  | [] => none
  | r :: rs => if ruleFails r w then some r else firstFailing w rs

/-- The accent table of `SmartFilterV2._normalize_word` (values are the
replacement strings, so œ and æ map to two characters). -/
def sfPairs : List (Char × List Char) :=
  [('à', ['a']), ('â', ['a']), ('ä', ['a']),
   ('é', ['e']), ('è', ['e']), ('ê', ['e']), ('ë', ['e']),
   ('ï', ['i']), ('î', ['i']),
   ('ô', ['o']), ('ö', ['o']), ('œ', ['o', 'e']),
   ('ù', ['u']), ('û', ['u']), ('ü', ['u']),
   ('ç', ['c']),
   ('æ', ['a', 'e'])]

/-- One character's contribution in `_normalize_word`:
`accent_map.get(char, char)`. -/
def sfMap (c : Char) : List Char := (lookupChar c sfPairs).getD [c]

/-- `SmartFilterV2._normalize_word`: for each character of `word.lower()`,
append `accent_map.get(char, char)`. -/
def normalize_word : Word → Word
  | [] => []
  | c :: cs => sfMap (pyLower c) ++ normalize_word cs

/-- `SmartFilterV2._check_spellcheck`.  The oracle is an optional lookup
function; a per-word lookup that raises is modelled by the lookup returning
`none`, which the `try/except` turns into `False`.  With no oracle the
function returns `False` immediately. -/
def check_spellcheck (oracle : Option (Word → Option Bool)) (w : Word) : Bool :=
  match oracle with
  | none => false
  | some f => ((f w).getD false)

/-- `SmartFilterV2.filter_words`: split the raw words by the heuristic
verdict; if a spell-checker is present (and there is something to check),
rejected words it validates are added back to the accepted set; finally
both sets are normalized.  Sets are modelled as lists (membership is what
the claims consume). -/
def filter_words (oracle : Option (Word → Option Bool)) (words_raw : List Word) :
    List Word × List Word :=
  let initial_accepted := words_raw.filter (fun w => is_valid_word w)
  let to_spellcheck := words_raw.filter (fun w => ¬ is_valid_word w)
  if oracle.isSome ∧ to_spellcheck ≠ [] then
    let validated := to_spellcheck.filter (fun w => check_spellcheck oracle w)
    let rejected := to_spellcheck.filter (fun w => ¬ check_spellcheck oracle w)
    ((initial_accepted ++ validated).map normalize_word, rejected.map normalize_word)
  else
    (initial_accepted.map normalize_word, to_spellcheck.map normalize_word)

/-- Modelled from the spec: a heuristics-only run — accepted words are
exactly those passing `_is_valid_word`, rejected words the rest, both then
normalized; no oracle is ever consulted. -/
def heuristics_only_run (words_raw : List Word) : List Word × List Word :=
  ((words_raw.filter (fun w => is_valid_word w)).map normalize_word,
   (words_raw.filter (fun w => ¬ is_valid_word w)).map normalize_word)

/-- The `TARGET_WORDS` array written by `SmartFilterV2.generate_js`:
`sorted(self.words_accepted)` (the accepted set, sorted). -/
def smart_target_words (accepted : List Word) : List Word := sortDedup accepted

/-- The `VALID_GUESSES` array written by `SmartFilterV2.generate_js`: the
generated JavaScript line is `const VALID_GUESSES = TARGET_WORDS;`, a plain
alias of the target array. -/
def smart_valid_guesses (accepted : List Word) : List Word := smart_target_words accepted

/-! ## `scripts/extract_from_libreoffice.py` -/

/-- The ligature table of `LibreOfficeExtractor._expand_ligatures`
(œ, æ, ﬁ, ﬂ), character-wise. -/
def expandLigEx (c : Char) : List Char :=
  if c = 'œ' then ['o', 'e']
  else if c = 'æ' then ['a', 'e']
  else if c = 'ﬁ' then ['f', 'i']
  else if c = 'ﬂ' then ['f', 'l']
  else [c]

/-- `LibreOfficeExtractor._expand_ligatures` lifted to strings. -/
def expandLigsEx : Word → Word
  | [] => []
  | c :: cs => expandLigEx c ++ expandLigsEx cs

/-- Model of Python `str.isalpha` on one character, restricted to the
Latin / French repertoire: ASCII letters, the accented letters of the
tables above, and the ligature letters. -/
def pyIsAlpha (c : Char) : Bool :=
  ("abcdefghijklmnopqrstuvwxyzABCDEFGHIJKLMNOPQRSTUVWXYZ".toList).contains c ||
  (lookupChar c stripPairs).isSome ||
  ("àâäéèêëïîôöœùûüæçñ".toList).contains c

/-- The per-word body of `LibreOfficeExtractor.filter_5letter_words`: expand
ligatures; keep the expanded word when it has exactly 5 characters and every
character of the raw word is alphabetic or one of the allowed accented
characters. -/
def keep5 (w : Word) : Option Word :=
  let expanded := expandLigsEx w
  if expanded.length = 5 ∧
      w.all (fun c => pyIsAlpha c || ("àâäéèêëïîôöœùûüæçñ".toList).contains c) then
    some expanded
  else none

/-- `LibreOfficeExtractor.filter_5letter_words` over a word list. -/
def filter_5letter (ws : List Word) : List Word := ws.filterMap keep5

/-- Parse a decimal digit string to a natural number (helper for `int`). -/
def parseNatDigits (s : Word) : Option Nat :=
  if s = [] then none
  else if s.all Char.isDigit then
    some (s.foldl (fun a c => a * 10 + (c.toNat - 48)) 0)
  else none

/-- Model of Python `int(·)` on an already-stripped string: an optional
sign followed by at least one decimal digit; anything else raises
(`none`). -/
def pyInt (s : Word) : Option Int :=
  match s with
  | '-' :: rest => (parseNatDigits rest).map (fun n => -(n : Int))
  | '+' :: rest => (parseNatDigits rest).map (fun n => (n : Int))
  | _ => (parseNatDigits s).map (fun n => (n : Int))

/-- The per-line word of `LibreOfficeExtractor.extract_from_dic`:
`line.strip().split('/')[0].lower()`. -/
def dicWord (line : Word) : Word :=
  pyLowerStr ((pyStrip line).takeWhile (fun c => c ≠ '/'))

/-- `LibreOfficeExtractor.extract_from_dic` on the list of lines of the
`.dic` file: the first line is parsed with `int` (a failure raises, the
`except` handler returns `False`, modelled as `none`, and no words are
kept); every later line contributes its `dicWord`, kept when non-empty. -/
def extract_from_dic (lines : List Word) : Option (List Word) :=
  match lines with
  | [] => some []
  | first :: rest =>
      match pyInt (pyStrip first) with
      | none => none
      | some _ =>
          some (rest.filterMap (fun l =>
            let w := dicWord l
            if w ≠ [] then some w else none))


/-! ## Helper lemmas -/

theorem mem_insertWord {a w : Word} {l : List Word} :
    a ∈ insertWord w l ↔ a = w ∨ a ∈ l := by
  induction l with
  | nil => simp [insertWord]
  | cons x xs ih =>
      by_cases h : lexLe w x = true
      · simp [insertWord, h]
      · simp [insertWord, h, ih]
        tauto

theorem mem_sortWords {a : Word} {l : List Word} :
    a ∈ sortWords l ↔ a ∈ l := by
  induction l with
  | nil => simp [sortWords]
  | cons x xs ih => simp [sortWords, mem_insertWord, ih]

theorem mem_sortDedup {a : Word} {l : List Word} :
    a ∈ sortDedup l ↔ a ∈ l := by
  simp [sortDedup, mem_sortWords]

theorem keepWord_some {w n : Word} (h : keepWord w = some n) :
    n = remove_accents w ∧ n.length = 5 ∧ is_likely_proper_noun n = false := by
  unfold keepWord at h
  by_cases h5 : (remove_accents w).length ≠ 5
  · simp [h5] at h
  · by_cases hp : is_likely_proper_noun (remove_accents w) = true
    · simp [h5, hp] at h
    · simp [h5, hp] at h
      simp_all

theorem mem_main_valid {w : Word} {lines : List Word} :
    w ∈ main_valid lines ↔ ∃ x ∈ preprocess lines, keepWord x = some w := by
  simp [main_valid, mem_sortDedup, valid_guesses_raw, List.mem_filterMap]

theorem mem_main_target {w : Word} {lines : List Word} :
    w ∈ main_target lines ↔
      (∃ x ∈ preprocess lines, keepWord x = some w) ∧
        is_likely_plural_or_conjugated w = false := by
  simp [main_target, mem_sortDedup, target_words_raw, List.mem_filter,
    valid_guesses_raw, List.mem_filterMap]

theorem expandLigs_append (x y : Word) :
    expandLigs (x ++ y) = expandLigs x ++ expandLigs y := by
  induction x with
  | nil => simp [expandLigs]
  | cons c cs ih => simp [expandLigs, ih]

theorem stripMarks_append (x y : Word) :
    stripMarks (x ++ y) = stripMarks x ++ stripMarks y := by
  induction x with
  | nil => simp [stripMarks]
  | cons c cs ih => simp [stripMarks, ih]

theorem remove_accents_cons (c : Char) (cs : Word) :
    remove_accents (c :: cs) = remove_accents [c] ++ remove_accents cs := by
  simp [remove_accents, expandLigs, stripMarks_append]

theorem remove_accents_append (x y : Word) :
    remove_accents (x ++ y) = remove_accents x ++ remove_accents y := by
  simp [remove_accents, expandLigs_append, stripMarks_append]

theorem lookupChar_some_mem {β : Type} {c : Char} {v : β} :
    ∀ {ps : List (Char × β)}, lookupChar c ps = some v → (c, v) ∈ ps := by
  intro ps
  induction ps with
  | nil => intro h; simp [lookupChar] at h
  | cons p rest ih =>
      intro h
      rcases p with ⟨k, u⟩
      by_cases hk : c = k
      · simp [lookupChar, hk] at h
        simp [hk, h]
      · simp [lookupChar, hk] at h
        exact List.mem_cons_of_mem _ (ih h)

/-- A character untouched by both steps of `remove_accents`. -/
def fixedChar (c : Char) : Prop := expandLig c = [c] ∧ nfkdStrip c = [c]

instance (c : Char) : Decidable (fixedChar c) := by
  unfold fixedChar
  infer_instance

theorem stripPairs_values_fixed :
    ∀ p ∈ stripPairs, ∀ d ∈ p.2, fixedChar d := by decide

theorem remove_accents_single_fixed (c : Char) :
    ∀ d ∈ remove_accents [c], fixedChar d := by
  intro d hd
  by_cases hoe : c = 'œ'
  · subst hoe
    simp [remove_accents, expandLigs, expandLig, stripMarks, nfkdStrip, lookupChar,
      stripPairs] at hd
    rcases hd with h | h <;> subst h <;> decide
  · by_cases hae : c = 'æ'
    · subst hae
      simp [remove_accents, expandLigs, expandLig, stripMarks, nfkdStrip, lookupChar,
        stripPairs] at hd
      rcases hd with h | h <;> subst h <;> decide
    · have hexp : expandLig c = [c] := by simp [expandLig, hoe, hae]
      have hra : remove_accents [c] = nfkdStrip c := by
        simp [remove_accents, expandLigs, hexp, stripMarks]
      rw [hra] at hd
      unfold nfkdStrip at hd
      cases hlk : lookupChar c stripPairs with
      | none =>
          rw [hlk] at hd
          simp at hd
          subst hd
          exact ⟨hexp, by unfold nfkdStrip; rw [hlk]; rfl⟩
      | some v =>
          rw [hlk] at hd
          simp at hd
          exact stripPairs_values_fixed (c, v) (lookupChar_some_mem hlk) d hd

theorem remove_accents_of_fixed {l : Word} (h : ∀ d ∈ l, fixedChar d) :
    remove_accents l = l := by
  induction l with
  | nil => rfl
  | cons c cs ih =>
      have hc := h c (List.mem_cons_self c cs)
      rw [remove_accents_cons]
      rw [ih (fun d hd => h d (List.mem_cons_of_mem c hd))]
      have : remove_accents [c] = [c] := by
        simp [remove_accents, expandLigs, hc.1, stripMarks, hc.2]
      rw [this]
      rfl

theorem remove_accents_idem (w : Word) :
    remove_accents (remove_accents w) = remove_accents w := by
  induction w with
  | nil => rfl
  | cons c cs ih =>
      rw [remove_accents_cons, remove_accents_append, ih]
      congr 1
      exact remove_accents_of_fixed (remove_accents_single_fixed c)

/-- A character untouched by both steps of `_normalize_word`. -/
def fixedCharSF (c : Char) : Prop := pyLower c = c ∧ sfMap c = [c]

instance (c : Char) : Decidable (fixedCharSF c) := by
  unfold fixedCharSF
  infer_instance

theorem lowerPairs_values_fixed : ∀ p ∈ lowerPairs, pyLower p.2 = p.2 := by decide

theorem pyLower_idem (c : Char) : pyLower (pyLower c) = pyLower c := by
  cases hlk : lookupChar c lowerPairs with
  | none =>
      have : pyLower c = c := by unfold pyLower; rw [hlk]; rfl
      rw [this]
      exact this
  | some v =>
      have : pyLower c = v := by unfold pyLower; rw [hlk]; rfl
      rw [this]
      exact lowerPairs_values_fixed (c, v) (lookupChar_some_mem hlk)

theorem sfPairs_values_fixed : ∀ p ∈ sfPairs, ∀ d ∈ p.2, fixedCharSF d := by decide

theorem sfMap_lower_fixed (c : Char) : ∀ d ∈ sfMap (pyLower c), fixedCharSF d := by
  intro d hd
  unfold sfMap at hd
  cases hlk : lookupChar (pyLower c) sfPairs with
  | none =>
      rw [hlk] at hd
      simp at hd
      subst hd
      refine ⟨pyLower_idem c, ?_⟩
      unfold sfMap
      rw [hlk]
      rfl
  | some v =>
      rw [hlk] at hd
      simp at hd
      exact sfPairs_values_fixed (pyLower c, v) (lookupChar_some_mem hlk) d hd

theorem normalize_word_append (x y : Word) :
    normalize_word (x ++ y) = normalize_word x ++ normalize_word y := by
  induction x with
  | nil => simp [normalize_word]
  | cons c cs ih => simp [normalize_word, ih]

theorem normalize_word_of_fixed {l : Word} (h : ∀ d ∈ l, fixedCharSF d) :
    normalize_word l = l := by
  induction l with
  | nil => rfl
  | cons c cs ih =>
      have hc := h c (List.mem_cons_self c cs)
      show sfMap (pyLower c) ++ normalize_word cs = c :: cs
      rw [hc.1, hc.2, ih (fun d hd => h d (List.mem_cons_of_mem c hd))]
      rfl

theorem normalize_word_idem (w : Word) :
    normalize_word (normalize_word w) = normalize_word w := by
  induction w with
  | nil => rfl
  | cons c cs ih =>
      show normalize_word (sfMap (pyLower c) ++ normalize_word cs) = _
      rw [normalize_word_append, ih, normalize_word_of_fixed (sfMap_lower_fixed c)]
      rfl

/-- The Latin / French letter repertoire: letters whose normalized
lowercase form consists only of unaccented lowercase ASCII letters. -/
def frenchLetters : List Char :=
  ("abcdefghijklmnopqrstuvwxyzABCDEFGHIJKLMNOPQRSTUVWXYZ" ++
   "àáâãäåçèéêëìíîïñòóôõöùúûüýÿœæ" ++
   "ÀÁÂÃÄÅÇÈÉÊËÌÍÎÏÑÒÓÔÕÖÙÚÛÜÝŸŒÆ").toList

theorem french_letter_norm_lower :
    ∀ c ∈ frenchLetters, ∀ d ∈ remove_accents [pyLower c], d.isLower = true := by
  decide

theorem remove_accents_lower_chars {s : Word} (h : ∀ c ∈ s, c ∈ frenchLetters) :
    ∀ d ∈ remove_accents (pyLowerStr s), d.isLower = true := by
  induction s with
  | nil => intro d hd; simp [pyLowerStr, remove_accents, expandLigs, stripMarks] at hd
  | cons c cs ih =>
      intro d hd
      have hmap : pyLowerStr (c :: cs) = pyLower c :: pyLowerStr cs := rfl
      rw [hmap, remove_accents_cons] at hd
      rcases List.mem_append.mp hd with h1 | h2
      · exact french_letter_norm_lower c (h c (List.mem_cons_self c cs)) d h1
      · exact ih (fun x hx => h x (List.mem_cons_of_mem c hx)) d h2

theorem mem_of_mem_dropWhile {p : Char → Bool} {a : Char} :
    ∀ {l : Word}, a ∈ l.dropWhile p → a ∈ l := by
  intro l
  induction l with
  | nil => intro h; simp [List.dropWhile] at h
  | cons x xs ih =>
      intro h
      by_cases hx : p x = true
      · simp [List.dropWhile, hx] at h
        exact List.mem_cons_of_mem x (ih h)
      · simp [List.dropWhile, hx] at h
        simpa using h

theorem mem_of_mem_pyStrip {a : Char} {l : Word} (h : a ∈ pyStrip l) : a ∈ l := by
  unfold pyStrip at h
  rw [List.mem_reverse] at h
  have h2 := mem_of_mem_dropWhile h
  rw [List.mem_reverse] at h2
  exact mem_of_mem_dropWhile h2

theorem mem_preprocess {x : Word} {lines : List Word} :
    x ∈ preprocess lines ↔
      ∃ l ∈ lines, pyStrip l ≠ [] ∧ x = pyLowerStr (pyStrip l) := by
  unfold preprocess
  rw [List.mem_filterMap]
  constructor
  · rintro ⟨l, hl, hx⟩
    by_cases hs : pyStrip l = []
    · simp [hs] at hx
    · simp [hs] at hx
      exact ⟨l, hl, hs, hx.symm⟩
  · rintro ⟨l, hl, hs, hx⟩
    refine ⟨l, hl, ?_⟩
    simp [hs, hx]

theorem firstFailing_eq_none {w : Word} :
    ∀ {rs : List Reason}, firstFailing w rs = none ↔ ∀ r ∈ rs, ruleFails r w = false := by
  intro rs
  induction rs with
  | nil => simp [firstFailing]
  | cons r rest ih =>
      by_cases h : ruleFails r w = true
      · simp [firstFailing, h]
      · simp [firstFailing, h, ih]

theorem validateWord_eq_firstFailing (w : Word) :
    validateWord w = firstFailing w ruleOrder := rfl

theorem target_mem_valid {lines : List Word} {w : Word}
    (h : w ∈ main_target lines) : w ∈ main_valid lines := by
  rw [mem_main_target] at h
  rw [mem_main_valid]
  exact h.1

theorem plural_iff_suffix (w : Word) :
    is_likely_plural_or_conjugated w = true ↔
      (pyEndswith w ['s'] = true ∧ w ∉ s_exceptions) ∨
        (pyEndswith w ['e', 'z'] = true ∧ w ∉ ez_exceptions) := by
  unfold is_likely_plural_or_conjugated
  split_ifs with h1 h2 <;> simp_all

theorem valid_word_chars_lower {lines : List Word}
    (hin : ∀ l ∈ lines, ∀ c ∈ l, c ∈ frenchLetters) {w : Word}
    (hw : w ∈ main_valid lines) : ∀ d ∈ w, d.isLower = true := by
  rw [mem_main_valid] at hw
  rcases hw with ⟨x, hx, hk⟩
  rcases mem_preprocess.mp hx with ⟨l, hl, _, hxl⟩
  have hwx : w = remove_accents x := (keepWord_some hk).1
  subst hxl
  subst hwx
  exact remove_accents_lower_chars
    (fun c hc => hin l hl c (mem_of_mem_pyStrip hc))

/-! ## Claims -/

/-- C1.  For every input word list, the emitted `targetWords` sequence is a
subset of the emitted `validGuesses` sequence — in `process_words.main`
every word appended to `target_words` was appended to `valid_guesses`
first, and in `SmartFilterV2.generate_js` the two arrays are aliases. -/
theorem C1_target_subset_valid :
    (∀ lines w, w ∈ main_target lines → w ∈ main_valid lines) ∧
    (∀ accepted w, w ∈ smart_target_words accepted → w ∈ smart_valid_guesses accepted) :=
  ⟨fun _ _ h => target_mem_valid h, fun _ _ h => h⟩

/-- Witness for C1 at the concrete run on the single word "lapin". -/
theorem C1_witness :
    ("lapin".toList ∈ main_valid [("lapin".toList)]) :=
  C1_target_subset_valid.1 [("lapin".toList)] ("lapin".toList) (by decide)

/-- C2.  The heuristic validator applies its rules in the fixed order
proper noun, length, vowel presence, identical first two characters, bad
two-character ending, valid start shape; evaluation short-circuits so the
recorded reason is that of the first failing rule, and the word is accepted
iff no rule fails. -/
theorem C2_rule_order :
    ∀ w, validateWord w = firstFailing w ruleOrder ∧
      (is_valid_word w = true ↔ ∀ r ∈ ruleOrder, ruleFails r w = false) := by
  intro w
  refine ⟨validateWord_eq_firstFailing w, ?_⟩
  rw [is_valid_word, Option.isNone_iff_eq_none, validateWord_eq_firstFailing,
    firstFailing_eq_none]

/-- Witness for C2 at the concrete word "Paris". -/
theorem C2_witness :
    validateWord ("Paris".toList) = firstFailing ("Paris".toList) ruleOrder :=
  (C2_rule_order ("Paris".toList)).1

/-- C3, counterexample: on the input consisting of the single line
"pommes", the word "pommes" (6 characters) is removed by the length-5 gate
and appears in neither output list — in particular it is not in
`validGuesses`, contradicting the claim. -/
theorem C3_counterexample :
    ("pommes".toList ∉ main_valid [("pommes".toList)]) ∧
      main_valid [("pommes".toList)] = [] ∧
      main_target [("pommes".toList)] = [] := by decide

/-- C3, amended.  For every accepted normalized word, target eligibility
follows the suffix rules: a word ending in "s" is excluded from
`targetWords` unless it is in the singular-s exception table, and a word
ending in "ez" is excluded unless it is in the ez exception table;
"temps" is target-eligible; "pommes" (6 letters) is excluded from both
outputs by the length gate, while a 5-letter word ending in "s" that is
not in the exception table, such as "joues", appears in `validGuesses`
but not in `targetWords`. -/
theorem C3_suffix_rules :
    (∀ w, is_likely_plural_or_conjugated w = true ↔
        (pyEndswith w ['s'] = true ∧ w ∉ s_exceptions) ∨
          (pyEndswith w ['e', 'z'] = true ∧ w ∉ ez_exceptions)) ∧
    (∀ lines w, w ∈ main_valid lines →
        (w ∈ main_target lines ↔ is_likely_plural_or_conjugated w = false)) ∧
    ("temps".toList ∈ main_target [("temps".toList)]) ∧
    ("joues".toList ∈ main_valid [("joues".toList)]) ∧
    ("joues".toList ∉ main_target [("joues".toList)]) ∧
    ("pommes".toList ∉ main_valid [("pommes".toList)]) := by
  refine ⟨plural_iff_suffix, ?_, by decide, by decide, by decide, by decide⟩
  intro lines w hv
  rw [mem_main_valid] at hv
  rw [mem_main_target]
  constructor
  · intro h
    exact h.2
  · intro h
    exact ⟨hv, h⟩

/-- Witness for C3 at the concrete run on the single word "temps". -/
theorem C3_witness :
    ("temps".toList ∈ main_target [("temps".toList)]) ↔
      is_likely_plural_or_conjugated ("temps".toList) = false :=
  C3_suffix_rules.2.1 [("temps".toList)] ("temps".toList) (by decide)

/-- C4.  Normalization expands the ligatures œ and æ before diacritics are
stripped, and the exactly-5-character gate is evaluated on the expanded
normalized form: the 4-character raw word "bœuf" normalizes to the
5-character "boeuf" and passes the 5-letter filter (both in
`process_words.main` and in the extractor's `filter_5letter_words`). -/
theorem C4_ligature_gate :
    (∀ w, remove_accents w = stripMarks (expandLigs w)) ∧
    (∀ w n, keepWord w = some n → n = remove_accents w ∧ n.length = 5) ∧
    ("bœuf".toList).length = 4 ∧
    remove_accents ("bœuf".toList) = "boeuf".toList ∧
    ("boeuf".toList).length = 5 ∧
    ("boeuf".toList ∈ main_valid [("bœuf".toList)]) ∧
    keep5 ("bœuf".toList) = some ("boeuf".toList) := by
  refine ⟨fun _ => rfl, ?_, by decide, by decide, by decide, by decide, by decide⟩
  intro w n h
  exact ⟨(keepWord_some h).1, (keepWord_some h).2.1⟩

/-- Witness for C4 at the concrete word "bœuf". -/
theorem C4_witness :
    "boeuf".toList = remove_accents ("bœuf".toList) ∧ ("boeuf".toList).length = 5 :=
  C4_ligature_gate.2.1 ("bœuf".toList) ("boeuf".toList) (by decide)

/-- C5, counterexample: the input line "ab-cd" passes the whole pipeline
untouched, so the emitted `validGuesses` contains a member with the
non-letter character `-`, contradicting the restricted-alphabet part of
the claim. -/
theorem C5_counterexample :
    ("ab-cd".toList ∈ main_valid [("ab-cd".toList)]) ∧
      ('-' ∈ "ab-cd".toList) ∧ ('-').isLower = false := by decide

/-- C5, amended.  Every member of both emitted output lists has exactly 5
characters; and when every character of the input consists of (possibly
accented, possibly uppercase) Latin / French letters, every member of both
outputs consists only of unaccented lowercase letters.  (For arbitrary
input, non-letter characters such as `-` pass through normalization, so
the restricted-alphabet part need not hold.) -/
theorem C5_length_and_alphabet :
    (∀ lines w, w ∈ main_valid lines → w.length = 5) ∧
    (∀ lines w, w ∈ main_target lines → w.length = 5) ∧
    (∀ lines, (∀ l ∈ lines, ∀ c ∈ l, c ∈ frenchLetters) →
      ∀ w, (w ∈ main_valid lines ∨ w ∈ main_target lines) →
        ∀ d ∈ w, d.isLower = true) := by
  have hlen : ∀ lines w, w ∈ main_valid lines → w.length = 5 := by
    intro lines w hw
    rw [mem_main_valid] at hw
    rcases hw with ⟨x, _, hk⟩
    exact (keepWord_some hk).2.1
  refine ⟨hlen, fun lines w hw => hlen lines w (target_mem_valid hw), ?_⟩
  intro lines hin w hw
  rcases hw with hw | hw
  · exact valid_word_chars_lower hin hw
  · exact valid_word_chars_lower hin (target_mem_valid hw)

/-- Witness for C5 at the concrete run on the single word "chien". -/
theorem C5_witness :
    ("chien".toList).length = 5 ∧ ('c').isLower = true :=
  ⟨C5_length_and_alphabet.1 [("chien".toList)] ("chien".toList) (by decide),
   C5_length_and_alphabet.2.2 [("chien".toList)] (by decide) ("chien".toList)
     (Or.inl (by decide)) 'c' (by decide)⟩

/-- C6.  With the spell-check oracle unavailable the per-word check returns
false without raising; a per-word lookup error also yields false; and a run
with the oracle unavailable produces exactly the accepted and rejected sets
of a heuristics-only run. -/
theorem C6_degraded_mode :
    (∀ w, check_spellcheck none w = false) ∧
    (∀ f w, f w = none → check_spellcheck (some f) w = false) ∧
    (∀ ws, filter_words none ws = heuristics_only_run ws) := by
  refine ⟨fun _ => rfl, ?_, ?_⟩
  · intro f w h
    simp [check_spellcheck, h]
  · intro ws
    simp [filter_words, heuristics_only_run]

/-- Witness for C6: an oracle whose lookup raises on every word still
yields false on the empty word. -/
theorem C6_witness :
    check_spellcheck (some (fun _ => none)) ([] : Word) = false :=
  C6_degraded_mode.2.1 (fun _ => none) [] rfl

/-- C7.  Both normalization functions of the repository are idempotent:
`process_words.remove_accents` and `SmartFilterV2._normalize_word` satisfy
`normalize(normalize(w)) == normalize(w)` for every string w. -/
theorem C7_normalize_idempotent :
    (∀ w, remove_accents (remove_accents w) = remove_accents w) ∧
    (∀ w, normalize_word (normalize_word w) = normalize_word w) :=
  ⟨remove_accents_idem, normalize_word_idem⟩

/-- C8.  In Hunspell `.dic` extraction the first line's decimal count is
advisory: any two parseable counts give identical extractions; and a word
is kept iff it is the non-empty lowercased portion before `/` of one of
the subsequent lines. -/
theorem C8_dic_extraction :
    ∀ f1 f2 rest n1 n2, pyInt (pyStrip f1) = some n1 → pyInt (pyStrip f2) = some n2 →
      extract_from_dic (f1 :: rest) = extract_from_dic (f2 :: rest) ∧
      ∃ ws, extract_from_dic (f1 :: rest) = some ws ∧
        ∀ w, w ∈ ws ↔ (∃ l ∈ rest, dicWord l = w) ∧ w ≠ [] := by
  intro f1 f2 rest n1 n2 h1 h2
  have hcons : ∀ first : Word, extract_from_dic (first :: rest) =
      match pyInt (pyStrip first) with
      | none => none
      | some _ => some (rest.filterMap (fun l =>
          let w := dicWord l
          if w ≠ [] then some w else none)) := fun _ => rfl
  constructor
  · rw [hcons f1, hcons f2, h1, h2]
  · refine ⟨rest.filterMap (fun l =>
      let w := dicWord l
      if w ≠ [] then some w else none), ?_, ?_⟩
    · rw [hcons f1, h1]
    · intro w
      rw [List.mem_filterMap]
      constructor
      · rintro ⟨l, hl, hw⟩
        by_cases hne : dicWord l = []
        · simp [hne] at hw
        · simp [hne] at hw
          exact ⟨⟨l, hl, hw⟩, hw ▸ hne⟩
      · rintro ⟨⟨l, hl, hw⟩, hne⟩
        refine ⟨l, hl, ?_⟩
        simp [hw, hne]

/-- Witness for C8: the counts 3 and 999 give the same extraction on the
same lines. -/
theorem C8_witness :
    extract_from_dic ("3".toList :: ["abc/XY".toList, "/T".toList]) =
      extract_from_dic ("999".toList :: ["abc/XY".toList, "/T".toList]) :=
  (C8_dic_extraction "3".toList "999".toList ["abc/XY".toList, "/T".toList]
    3 999 (by decide) (by decide)).1

/-- C9.  If the input word list file is missing or unreadable the run is
fatal: it produces no output, reports the offending path, and the output
file is written exactly when the full batch completes without a fatal
error. -/
theorem C9_fatal_input_error :
    (main_run none).output = none ∧
    (main_run none).errorMsg = some ("words_raw.txt".toList) ∧
    (∀ lines, (main_run (some lines)).output = some (main_target lines, main_valid lines) ∧
      (main_run (some lines)).errorMsg = none) ∧
    (∀ file, ((main_run file).output).isSome = file.isSome) := by
  refine ⟨rfl, rfl, fun _ => ⟨rfl, rfl⟩, ?_⟩
  intro file
  cases file <;> rfl

/-- C10.  In the smart-filter pipeline the emitted `VALID_GUESSES` sequence
is identical to the emitted `TARGET_WORDS` sequence (the generated
JavaScript aliases one to the other), both being the sorted deduplicated
accepted set. -/
theorem C10_valid_equals_target :
    ∀ accepted, smart_valid_guesses accepted = smart_target_words accepted ∧
      smart_target_words accepted = sortDedup accepted :=
  fun _ => ⟨rfl, rfl⟩
